import Mathlib

/-!
Shallow embedding of `src/index.tsx` (Red Recycling Assistant, a browser SPA).

Conventions of the embedding:
* JS strings are Lean `String`s; character-level scans work on `String.data`.
* JS numbers that the claims depend on are modelled exactly as rationals `ℚ`
  (binary floating-point rounding is irrelevant to every claim considered);
  a JS `NaN` is modelled as `Option.none`, so `parseFloat` returns `Option ℚ`.
* `JSON.parse` success/failure is modelled by a faithful checker of the JSON
  grammar (`jsonValid`); the value materialised by a successful parse is
  shape-trusted by the source (`const x: T = parseJsonResponse(...)`) and is
  therefore passed to the gateway models as an explicit input.
* Async handlers are decomposed at their suspension points into explicit
  state-transition functions; the DOM is abstracted away (form field values,
  timestamps and stream chunks become function arguments).
-/

namespace RedRecycling

/- ===== Data model (src/index.tsx lines 3-50) ===== -/

/-- `interface Material` (lines 4-9). `quantity` is `none` when the JS value
would be `NaN`. -/
structure Material where
  id : String
  name : String
  quantity : Option ℚ
  unit : String
deriving DecidableEq

/-- `interface MaterialRequired` (lines 11-15). -/
structure MaterialRequired where
  name : String
  quantity : ℚ
  unit : String
deriving DecidableEq

/-- `interface Suggestion` (lines 17-23). -/
structure Suggestion where
  id : String
  title : String
  description : String
  materials_required : List MaterialRequired
  image_base64 : Option String
deriving DecidableEq

/-- One element of `ProjectData.steps` (line 28). The schema declares
`step` as `Type.INTEGER`, so it is modelled as `Int`. -/
structure Step where
  step : Int
  title : String
  description : String
deriving DecidableEq

/-- One element of `ProjectData.power_consumption_breakdown` (line 27). -/
structure PowerItem where
  task : String
  kwh : ℚ
deriving DecidableEq

/-- `interface ProjectData` (lines 25-29). -/
structure ProjectData where
  total_power_consumption_kwh : ℚ
  power_consumption_breakdown : List PowerItem
  steps : List Step
deriving DecidableEq

/-- The `role` field of `ChatMessage` (line 33). -/
inductive Role where
  | user
  | model
deriving DecidableEq

/-- `interface ChatMessage` (lines 31-35). -/
structure ChatMessage where
  id : String
  role : Role
  text : String
deriving DecidableEq

/-- The `language` field of `AppState` (line 45): locale `'en' | 'ar'`. -/
inductive Lang where
  | en
  | ar
deriving DecidableEq

/- ===== String helpers (JS built-ins used by the source) ===== -/

/-- JS whitespace as recognised by `String.prototype.trim` and `parseFloat`
(space, tab, LF, CR, VT, FF, NBSP, BOM, LS, PS; the remaining exotic Unicode
space characters never occur in the claims and are omitted). -/
def jsWhitespace (c : Char) : Bool :=
  c = ' ' ∨ c = '\t' ∨ c = '\n' ∨ c = '\r' ∨ c.toNat = 11 ∨ c.toNat = 12 ∨
    c.toNat = 160 ∨ c.toNat = 65279 ∨ c.toNat = 8232 ∨ c.toNat = 8233

/-- JS `String.prototype.trim`: strip leading and trailing whitespace. -/
def trimStr (s : String) : String :=
  ⟨((s.data.dropWhile jsWhitespace).reverse.dropWhile jsWhitespace).reverse⟩

/-- Numeric value of a digit character. -/
def digitVal (c : Char) : Nat := c.toNat - 48

/-- Value of a (most-significant-first) digit string. -/
def natFromDigits (l : List Char) : Nat :=
  l.foldl (fun n c => n * 10 + digitVal c) 0

/-- Exponent part of a JS decimal literal: `e`/`E`, an optional sign and
digits. When the digits are missing, `parseFloat` does not consume the
exponent (so `parseFloat "1e" = 1`) and the contribution is `0`. -/
def parseFloatExp (l : List Char) : Int :=
  match l with
  | c :: rest =>
    if c = 'e' ∨ c = 'E' then
      let sr : Int × List Char :=
        match rest with
        | '-' :: u => (-1, u)
        | '+' :: u => (1, u)
        | _ => (1, rest)
      let ds := sr.2.takeWhile Char.isDigit
      if ds = [] then 0 else sr.1 * (natFromDigits ds : Int)
    else 0
  | [] => 0

/-- JS `parseFloat`: skip leading whitespace, an optional sign, then the
longest decimal-literal prefix `digits [. digits] [exponent]`; `none` models
the `NaN` result when no digits are found. (`Infinity` literals are not
modelled; no claim involves them.) -/
def parseFloat (s : String) : Option ℚ :=
  let l := s.data.dropWhile jsWhitespace
  let sl : ℚ × List Char :=
    match l with
    | '-' :: u => (-1, u)
    | '+' :: u => (1, u)
    | _ => (1, l)
  let ip := sl.2.span Char.isDigit
  let fp : List Char × List Char :=
    match ip.2 with
    | '.' :: u => u.span Char.isDigit
    | _ => ([], ip.2)
  if ip.1 = [] ∧ fp.1 = [] then none
  else
    let mant : ℚ := (natFromDigits (ip.1 ++ fp.1) : ℚ) / ((10 : ℚ) ^ fp.1.length)
    some (sl.1 * mant * (10 : ℚ) ^ parseFloatExp fp.2)

/- ===== JSON grammar checker (model of JS JSON.parse acceptance) ===== -/

/-- The backquote character (code 96), written via `Char.ofNat`. -/
def bq : Char := Char.ofNat 96

/-- The left curly brace character (code 123). -/
def lcurly : Char := Char.ofNat 123

/-- The right curly brace character (code 125). -/
def rcurly : Char := Char.ofNat 125

/-- JSON insignificant whitespace (space, tab, LF, CR). -/
def jsonWs (c : Char) : Bool :=
  c = ' ' ∨ c = '\t' ∨ c = '\n' ∨ c = '\r'

/-- Hexadecimal digit, as allowed inside a JSON `\uXXXX` escape. -/
def hexDigit (c : Char) : Bool :=
  c.isDigit ∨ ('a' ≤ c ∧ c ≤ 'f') ∨ ('A' ≤ c ∧ c ≤ 'F')

/-- Single-character JSON string escapes (the character after a backslash). -/
def escapeChar (c : Char) : Bool :=
  c = '"' ∨ c = '\\' ∨ c = '/' ∨ c = 'b' ∨ c = 'f' ∨ c = 'n' ∨ c = 'r' ∨ c = 't'

/-- Lex the body of a JSON string literal after its opening quote; returns the
input remaining after the closing quote. Raw control characters (code < 32)
are rejected, exactly as `JSON.parse` rejects them. -/
def lexString : List Char → Option (List Char)
  | [] => none
  | '"' :: rest => some rest
  | '\\' :: 'u' :: h1 :: h2 :: h3 :: h4 :: rest =>
    if hexDigit h1 ∧ hexDigit h2 ∧ hexDigit h3 ∧ hexDigit h4 then lexString rest else none
  | '\\' :: e :: rest => if escapeChar e then lexString rest else none
  | c :: rest => if 32 ≤ c.toNat then lexString rest else none

/-- Require at least one digit, then return what follows the digit run. -/
def digitSpanRest (l : List Char) : Option (List Char) :=
  if (l.span Char.isDigit).1 = [] then none else some (l.span Char.isDigit).2

/-- Strip one optional leading sign. -/
def stripSign : List Char → List Char
  | '+' :: u => u
  | '-' :: u => u
  | l => l

/-- Strip one optional leading minus. -/
def stripMinus : List Char → List Char
  | '-' :: u => u
  | l => l

/-- Lex the exponent part of a JSON number, if present: `e`/`E`, an optional
sign, then at least one digit. -/
def lexExpPart (l : List Char) : Option (List Char) :=
  match l with
  | c :: rest =>
    if c = 'e' ∨ c = 'E' then digitSpanRest (stripSign rest) else some l
  | [] => some []

/-- Lex the optional fraction (a dot followed by at least one digit) then the
exponent of a JSON number. -/
def lexFrac (l : List Char) : Option (List Char) :=
  match l with
  | '.' :: rest =>
    match digitSpanRest rest with
    | some r2 => lexExpPart r2
    | none => none
  | _ => lexExpPart l

/-- Lex a JSON number `-? (0 | [1-9][0-9]*) frac? exp?`; returns the remaining
input. A leading zero followed by a digit is rejected, as in `JSON.parse`. -/
def lexNumber (l : List Char) : Option (List Char) :=
  match stripMinus l with
  | '0' :: rest =>
    match rest with
    | d :: _ => if d.isDigit then none else lexFrac rest
    | [] => some []
  | c :: rest => if c.isDigit then lexFrac (rest.dropWhile Char.isDigit) else none
  | [] => none

/-- JSON tokens (string/number contents are irrelevant to validity). -/
inductive JTok where
  | lbrace
  | rbrace
  | lbrack
  | rbrack
  | colon
  | comma
  | jstr
  | jnum
  | jtrue
  | jfalse
  | jnull
deriving DecidableEq

/-- Tokenize a JSON text. The fuel argument only serves termination; any fuel
of at least the input length succeeds on tokenizable input, since every
recursive call consumes at least one character. -/
def tokenize : Nat → List Char → Option (List JTok)
  | _, [] => some []
  | 0, _ :: _ => none
  | fuel + 1, c :: cs =>
    if jsonWs c then tokenize fuel cs
    else if c = lcurly then (tokenize fuel cs).map (JTok.lbrace :: ·)
    else if c = rcurly then (tokenize fuel cs).map (JTok.rbrace :: ·)
    else if c = '[' then (tokenize fuel cs).map (JTok.lbrack :: ·)
    else if c = ']' then (tokenize fuel cs).map (JTok.rbrack :: ·)
    else if c = ':' then (tokenize fuel cs).map (JTok.colon :: ·)
    else if c = ',' then (tokenize fuel cs).map (JTok.comma :: ·)
    else if c = '"' then
      match lexString cs with
      | some rest => (tokenize fuel rest).map (JTok.jstr :: ·)
      | none => none
    else if c = 't' then
      match cs with
      | 'r' :: 'u' :: 'e' :: rest => (tokenize fuel rest).map (JTok.jtrue :: ·)
      | _ => none
    else if c = 'f' then
      match cs with
      | 'a' :: 'l' :: 's' :: 'e' :: rest => (tokenize fuel rest).map (JTok.jfalse :: ·)
      | _ => none
    else if c = 'n' then
      match cs with
      | 'u' :: 'l' :: 'l' :: rest => (tokenize fuel rest).map (JTok.jnull :: ·)
      | _ => none
    else if c = '-' ∨ c.isDigit then
      match lexNumber (c :: cs) with
      | some rest => (tokenize fuel rest).map (JTok.jnum :: ·)
      | none => none
    else none

mutual

/-- Parse one JSON value from a token stream, returning the remaining tokens. -/
def parseVal : Nat → List JTok → Option (List JTok)
  | 0, _ => none
  | _ + 1, [] => none
  | fuel + 1, tk :: ts =>
    match tk with
    | .jstr => some ts
    | .jnum => some ts
    | .jtrue => some ts
    | .jfalse => some ts
    | .jnull => some ts
    | .lbrace =>
      match ts with
      | .rbrace :: r => some r
      | _ => parseMembers fuel ts
    | .lbrack =>
      match ts with
      | .rbrack :: r => some r
      | _ => parseElems fuel ts
    | _ => none

/-- Parse the non-empty element list of a JSON array, up to and including the
closing bracket. -/
def parseElems : Nat → List JTok → Option (List JTok)
  | 0, _ => none
  | fuel + 1, ts =>
    match parseVal fuel ts with
    | some (.comma :: r) => parseElems fuel r
    | some (.rbrack :: r) => some r
    | _ => none

/-- Parse the non-empty member list of a JSON object, up to and including the
closing brace. -/
def parseMembers : Nat → List JTok → Option (List JTok)
  | 0, _ => none
  | fuel + 1, .jstr :: .colon :: ts =>
    match parseVal fuel ts with
    | some (.comma :: r) => parseMembers fuel r
    | some (.rbrace :: r) => some r
    | _ => none
  | _ + 1, _ => none

end

/-- Acceptance of a whole text by `JSON.parse`: tokenize, then parse exactly
one value with nothing left over. -/
def jsonValid (s : String) : Bool :=
  match tokenize (s.data.length + 1) s.data with
  | some toks => decide (parseVal (2 * toks.length + 2) toks = some [])
  | none => false

/- ===== The fenced-code-block regex (line 60) ===== -/

/-- Boolean list-prefix test. -/
def listStarts : List Char → List Char → Bool
  | [], _ => true
  | _ :: _, [] => false
  | p :: ps, c :: cs => p = c ∧ listStarts ps cs

/-- The characters the regex literal opens with: three backquotes, `json`, LF. -/
def openFence : List Char := [bq, bq, bq, 'j', 's', 'o', 'n', '\n']

/-- The characters the regex literal closes with: LF then three backquotes. -/
def closeFence : List Char := ['\n', bq, bq, bq]

/-- Scan for the earliest close fence; return the characters before it (the
lazy capture group of the regex). -/
def fenceAfter : List Char → Option (List Char)
  | [] => none
  | c :: cs =>
    if listStarts closeFence (c :: cs) then some []
    else (fenceAfter cs).map (c :: ·)

/-- Leftmost match of the regex `diagonal-fence json LF (lazy any) LF
diagonal-fence`: the earliest position where the open fence matches and a
close fence follows; returns the capture group. -/
def findFence : List Char → Option (List Char)
  | [] => none
  | c :: cs =>
    if listStarts openFence (c :: cs) then
      match fenceAfter (cs.drop 7) with
      | some block => some block
      | none => findFence cs
    else findFence cs

/-- Some suffix of the list starts with the open fence (three backquotes,
`json`, LF) — the necessary condition for the regex of line 60 to match. -/
inductive HasOpen : List Char → Prop where
  | here (tail : List Char) :
      HasOpen (bq :: bq :: bq :: 'j' :: 's' :: 'o' :: 'n' :: '\n' :: tail)
  | there (c : Char) (l : List Char) : HasOpen l → HasOpen (c :: l)

/-- A backquote-free decomposition, the common conclusion of the number-lexer
lemmas. -/
def BqFreeSplit (l pre r : List Char) : Prop :=
  l = pre ++ r ∧ ∀ x ∈ pre, x ≠ bq

/- ===== parseJsonResponse (lines 57-69) ===== -/

/-- `parseJsonResponse` (lines 57-69), modelled at text level: the result is
the text that `JSON.parse` was successfully applied to (the JS value it
materializes is determined by that text). Note the source tests
`match && match[1]`, so an *empty* capture group (falsy in JS) falls through
to parsing the whole payload. -/
def parseJsonResponse (jsonString : String) : Except String String :=
  match findFence jsonString.data with
  | some (c :: block) =>
    if jsonValid ⟨c :: block⟩ then Except.ok ⟨c :: block⟩
    else Except.error "Invalid JSON response from the model."
  | _ =>
    if jsonValid jsonString then Except.ok jsonString
    else Except.error "Invalid JSON response from the model."

/-- Modelled from the spec words for the JSON extraction helper: first attempt
direct JSON parsing of the whole payload; only if that fails, look for a
fenced code block and retry on its contents; if both fail, raise a parse
failure. Defined for comparison with `parseJsonResponse`. -/
def parseJsonResponseSpec (jsonString : String) : Except String String :=
  if jsonValid jsonString then Except.ok jsonString
  else
    match findFence jsonString.data with
    | some block =>
      if jsonValid ⟨block⟩ then Except.ok ⟨block⟩
      else Except.error "Invalid JSON response from the model."
    | none => Except.error "Invalid JSON response from the model."

/- ===== AI gateway models (lines 71-225) =====
The network call itself is abstracted: the model response text arrives as an
`Option String` input (`response.text` may be absent). The value a successful
`JSON.parse` materializes is shape-trusted by the source (`const x: T = ...`),
so it is passed in as an explicit, already-typed input. -/

/-- Stable insertion into a list sorted by the `step` field: the element is
placed before the first entry whose key is not smaller, so an earlier element
stays before later elements with an equal key. -/
def insertStep (x : Step) : List Step → List Step
  | [] => [x]
  | y :: ys => if y.step < x.step then y :: insertStep x ys else x :: y :: ys

/-- The in-place `steps.sort((a, b) => a.step - b.step)` (line 223).
`Array.prototype.sort` is stable and the comparator is a total preorder by
the `step` key; the stable sort of a list by a total key order is unique, and
is modelled here by stable insertion sort. -/
def sortSteps (steps : List Step) : List Step :=
  steps.foldr insertStep []

/-- `getSteps` (lines 158-225) after the network call: empty-response check on
`response.text?.trim()`, JSON extraction, then in-place ascending sort of
`steps`. `parsed` is the shape-trusted `ProjectData` materialized by
`JSON.parse` when it succeeds. -/
def getSteps (respText : Option String) (parsed : ProjectData) :
    Except String ProjectData :=
  match respText.map trimStr with
  | none => Except.error "Received an empty response from the model when fetching project steps."
  | some rt =>
    if rt = "" then
      Except.error "Received an empty response from the model when fetching project steps."
    else
      match parseJsonResponse rt with
      | Except.error e => Except.error e
      | Except.ok _ => Except.ok { parsed with steps := sortSteps parsed.steps }

/-- Per-suggestion image attachment (lines 125-153): a generated image byte
payload is attached when present; an absent payload or a failed image call
leaves the suggestion unchanged. -/
def attachImage (sug : Suggestion) (img : Option String) : Suggestion :=
  match img with
  | some bytes => { sug with image_base64 := some bytes }
  | none => sug

/-- `getSuggestions` (lines 71-156) after the network call: empty-response
check on `response.text?.trim()`, JSON extraction, then one image outcome per
suggestion. `parsed` is the shape-trusted suggestion list materialized by
`JSON.parse`; `images` holds each suggestion's image outcome. -/
def getSuggestions (respText : Option String) (parsed : List Suggestion)
    (images : List (Option String)) : Except String (List Suggestion) :=
  match respText.map trimStr with
  | none => Except.error "Received an empty response from the model when fetching suggestions."
  | some rt =>
    if rt = "" then
      Except.error "Received an empty response from the model when fetching suggestions."
    else
      match parseJsonResponse rt with
      | Except.error e => Except.error e
      | Except.ok _ => Except.ok (List.zipWith attachImage parsed images)

/- ===== Translations (lines 246-392) ===== -/

/-- The static translation table (lines 246-387), as `(key, en, ar)` rows. -/
def translations : List (String × String × String) := [
  ("app_title", "Red Recycling Assistant", "مساعد التدوير الأحمر"),
  ("app_subtitle", "Jezero Crater Fabrication Unit", "وحدة تصنيع فوهة جيزيرو"),
  ("inventory_input_title", "Jezero Crater - Waste Inventory", "فوهة جيزيرو - مخزون النفايات"),
  ("inventory_input_subtitle", "Log available waste materials for fabrication analysis.", "سجل مواد النفايات المتاحة لتحليل التصنيع."),
  ("material_name_label", "Material Name", "اسم المادة"),
  ("material_name_placeholder", "e.g., Broken Rover Parts", "مثال: قطع غيار مركبة مكسورة"),
  ("quantity_label", "Quantity", "الكمية"),
  ("quantity_placeholder", "e.g., 10", "مثال: 10"),
  ("unit_label", "Unit", "الوحدة"),
  ("add_button", "Add", "إضافة"),
  ("current_inventory_title", "Current Inventory", "المخزون الحالي"),
  ("no_materials_text", "No materials logged yet.", "لم يتم تسجيل أي مواد بعد."),
  ("difficulty_label", "Fabrication Difficulty:", "صعوبة التصنيع:"),
  ("easy", "Easy", "سهل"),
  ("medium", "Medium", "متوسط"),
  ("hard", "Hard", "صعب"),
  ("get_suggestions_button", "Analyze & Suggest Projects", "تحليل واقتراح المشاريع"),
  ("loading_suggestions", "Analyzing materials... Generating blueprints...", "جاري تحليل المواد... وتوليد المخططات..."),
  ("loading_steps", "Calculating manufacturing protocol...", "جاري حساب بروتوكول التصنيع..."),
  ("no_suggestions", "No fabricable items found. Log more materials to analyze.", "لم يتم العثور على عناصر قابلة للتصنيع. سجل المزيد من المواد للتحليل."),
  ("suggestions_title", "Fabrication Blueprints", "مخططات التصنيع"),
  ("suggestions_subtitle", "Analysis complete. The following items can be fabricated. Select a blueprint to view protocol.", "اكتمل التحليل. يمكن تصنيع العناصر التالية. اختر مخططًا لعرض البروتوكول."),
  ("materials_required", "Materials Required", "المواد المطلوبة"),
  ("project_steps_title", "Manufacturing Protocol", "بروتوكول التصنيع"),
  ("back_button", "Return to Blueprints", "العودة إلى المخططات"),
  ("start_new_project_button", "New Project", "مشروع جديد"),
  ("step", "Step", "خطوة"),
  ("power_analysis_title", "Power Consumption Analysis", "تحليل استهلاك الطاقة"),
  ("total_power_consumption", "Total Estimated Consumption", "إجمالي الاستهلاك المقدر"),
  ("recycler_tab", "Fabrication Unit", "وحدة التصنيع"),
  ("chatbot_tab", "AI Assistant", "المساعد الذكي"),
  ("chatbot_greeting", "Red Recycling Assistant online. Atmospheric pressure is nominal, and I\x27ve finished recalibrating my material scanners. I\x27m ready to turn today\x27s scrap into tomorrow\x27s survival gear. What engineering challenge can I help you solve?", "مساعد التدوير الأحمر متصل. الضغط الجوي طبيعي، وقد انتهيت من إعادة معايرة ماسحات المواد الخاصة بي. أنا مستعد لتحويل خردة اليوم إلى معدات بقاء للغد. ما هو التحدي الهندسي الذي يمكنني مساعدتك في حله؟"),
  ("chatbot_placeholder", "Query the assistant...", "استعلم من المساعد..."),
  ("error_chat", "Connection error. Please check the comms link and try again.", "خطأ في الاتصال. يرجى التحقق من رابط الاتصالات والمحاولة مرة أخرى."),
  ("image_placeholder", "Image not available", "الصورة غير متوفرة")]

/-- ASCII lowering of one character, the fragment of JS `toLowerCase` the
translation keys exercise (all keys are ASCII). -/
def asciiToLower (c : Char) : Char :=
  if 'A' ≤ c ∧ c ≤ 'Z' then Char.ofNat (c.toNat + 32) else c

/-- JS `String.prototype.toLowerCase` restricted to ASCII case mapping. -/
def toLowerCase (s : String) : String :=
  ⟨s.data.map asciiToLower⟩

/-- Lookup `translations[k]` as the `(en, ar)` pair. -/
def lookupTranslation (k : String) : Option (String × String) :=
  (translations.find? (fun e => e.1 = k)).map (fun e => e.2)

/-- The translation function `t` (lines 389-392): lower-case the key, return
the localized string when the table has the key, the original key otherwise. -/
def t (key : String) (language : Lang) : String :=
  match lookupTranslation (toLowerCase key) with
  | some p =>
    match language with
    | Lang.en => p.1
    | Lang.ar => p.2
  | none => key

/- ===== Application state and handlers (lines 394-876) ===== -/

/-- The `activeTab` field of `AppState` (line 46). -/
inductive Tab where
  | recycler
  | chatbot
deriving DecidableEq

/-- `interface AppState` (lines 37-50). The live `Chat` handle is modelled by
the locale `startChat` received when the session was created (`none` models
the JS `null`). -/
structure AppState where
  materials : List Material
  suggestions : List Suggestion
  selectedSuggestion : Option Suggestion
  projectData : Option ProjectData
  isLoading : Bool
  error : Option String
  difficulty : String
  language : Lang
  activeTab : Tab
  chat : Option Lang
  chatMessages : List ChatMessage
  isChatLoading : Bool
deriving DecidableEq

/-- The initial `state` object (lines 395-408). -/
def initialState : AppState where
  materials := []
  suggestions := []
  selectedSuggestion := none
  projectData := none
  isLoading := false
  error := none
  difficulty := "Medium"
  language := Lang.en
  activeTab := Tab.recycler
  chat := none
  chatMessages := []
  isChatLoading := false

/-- The recycler sub-view chosen by `renderRecyclerContent`. -/
inductive RecyclerView where
  | stepsDisplay
  | suggestionDisplay
  | materialInput
deriving DecidableEq

/-- `renderRecyclerContent` (lines 645-649) as a view selector: steps view if
a suggestion is selected; the suggestion/loading/error view if loading, or
suggestions exist, or an error is set; else the material input view. -/
def renderRecyclerContent (s : AppState) : RecyclerView :=
  if s.selectedSuggestion.isSome then RecyclerView.stepsDisplay
  else if s.isLoading ∨ s.suggestions ≠ [] ∨ s.error.isSome then RecyclerView.suggestionDisplay
  else RecyclerView.materialInput

/-- `handleAddMaterial` (lines 676-691) on the extracted form values. `now` is
`new Date().toISOString()` at the time of the call; the returned flag records
whether the material was appended and the form reset. The JS truthiness test
`if (name && quantity)` is non-emptiness of both strings. -/
def handleAddMaterial (now name qty unit : String) (materials : List Material) :
    List Material × Bool :=
  if name ≠ "" ∧ qty ≠ "" then
    (materials ++ [{ id := now, name := name, quantity := parseFloat qty, unit := unit }], true)
  else (materials, false)

/-- `handleDeleteMaterial` (lines 693-696). -/
def handleDeleteMaterial (i : String) (materials : List Material) : List Material :=
  materials.filter (fun m => m.id ≠ i)

/-- One user interaction with the inventory: an add-material form submission
(with the timestamp minted at that moment) or a delete click. -/
inductive InvOp where
  | add (now name qty unit : String)
  | del (i : String)

/-- Apply one inventory operation to the materials list. -/
def applyInvOp (materials : List Material) : InvOp → List Material
  | InvOp.add now name qty unit => (handleAddMaterial now name qty unit materials).1
  | InvOp.del i => handleDeleteMaterial i materials

/-- Run a sequence of inventory operations from the initial empty list. -/
def runInvOps (ops : List InvOp) : List Material :=
  ops.foldl applyInvOp []

/-- The timestamps minted by the add operations of a sequence. -/
def addStamps : List InvOp → List String
  | [] => []
  | InvOp.add now _ _ _ :: ops => now :: addStamps ops
  | InvOp.del _ :: ops => addStamps ops

/-- `handleReset` (lines 748-754): clears materials, suggestions, selection
and project data; every other field (notably `error` and `isLoading`) is left
untouched. -/
def handleReset (s : AppState) : AppState :=
  { s with materials := [], suggestions := [], selectedSuggestion := none,
           projectData := none }

/-- The ternary on line 757: `'en' ? 'ar' : 'en'`. -/
def flipLang : Lang → Lang
  | Lang.en => Lang.ar
  | Lang.ar => Lang.en

/-- `initChat` (lines 816-823): create a session in the current locale and
seed the transcript with the single localized greeting. -/
def initChat (s : AppState) : AppState :=
  { s with chat := some s.language,
           chatMessages := [⟨"initial", Role.model, t "chatbot_greeting" s.language⟩] }

/-- `handleToggleLanguage` (lines 756-766): flip the locale, clear materials,
suggestions, selection, project data and error, then reinitialize the chat in
the new locale. -/
def handleToggleLanguage (s : AppState) : AppState :=
  initChat { s with
    language := flipLang s.language,
    materials := [], suggestions := [], selectedSuggestion := none,
    projectData := none, error := none }

/- ===== handleSendMessage (lines 776-813), decomposed at its suspension
points. `raw` is the input field value, `now` is `Date.now().toString()` at
the time of the call, and the stream chunks arrive as a list of text
fragments (`chunk.text || ''`). ===== -/

/-- The synchronous prefix of `handleSendMessage` up to the first `await`
(lines 777-784): the guard `!input || !state.chat || state.isChatLoading`,
then appending the user message and raising the in-flight flag. The returned
flag records whether a request was issued. -/
def handleSendMessagePre (raw now : String) (s : AppState) : AppState × Bool :=
  let input := trimStr raw
  if input = "" ∨ s.chat = none ∨ s.isChatLoading then (s, false)
  else ({ s with chatMessages := s.chatMessages ++ [⟨now, Role.user, input⟩],
                 isChatLoading := true }, true)

/-- The continuation once `sendMessageStream` resolves (lines 787-793): the
in-flight flag is cleared *before* any chunk arrives, and the placeholder
model message is appended. -/
def handleSendMessageStreamStart (now : String) (s : AppState) : AppState :=
  { s with isChatLoading := false,
           chatMessages := s.chatMessages ++ [⟨now ++ "-model", Role.model, "..."⟩] }

/-- The body of the `for await` loop (lines 795-802): overwrite the text of
the first message whose id matches (`findIndex`); leave the list unchanged
when no id matches. -/
def setMessageText : List ChatMessage → String → String → List ChatMessage
  | [], _, _ => []
  | m :: ms, mid, txt =>
    if m.id = mid then { m with text := txt } :: ms
    else m :: setMessageText ms mid txt

/-- Fold the stream: `modelResponse += chunk.text || ''` then update the
message with id `mid` to the accumulated text, for each chunk in order. -/
def streamChunks (mid : String) : List String → String → List ChatMessage → List ChatMessage
  | [], _, msgs => msgs
  | c :: cs, acc, msgs => streamChunks mid cs (acc ++ c) (setMessageText msgs mid (acc ++ c))

/-- A complete successful run of `handleSendMessage`: the synchronous prefix,
then (when a request was issued) the stream start and all chunks. -/
def handleSendMessageRun (raw now : String) (chunks : List String) (s : AppState) : AppState :=
  let pre := handleSendMessagePre raw now s
  if pre.2 then
    let s2 := handleSendMessageStreamStart now pre.1
    { s2 with chatMessages := streamChunks (now ++ "-model") chunks "" s2.chatMessages }
  else pre.1

/- ===================================================================== -/
/- ===== Theorems ===== -/
/- ===================================================================== -/

/-- C7: toggling the language flips the locale between the two supported
values and clears materials, suggestions, the selected suggestion and the
error, and replaces the chat with a freshly created session in the new locale
whose transcript is exactly the one localized model greeting. -/
theorem toggleLanguage_resets_and_regreets (s : AppState) :
    (handleToggleLanguage s).language = flipLang s.language ∧
    (handleToggleLanguage s).language ≠ s.language ∧
    (handleToggleLanguage s).materials = [] ∧
    (handleToggleLanguage s).suggestions = [] ∧
    (handleToggleLanguage s).selectedSuggestion = none ∧
    (handleToggleLanguage s).error = none ∧
    (handleToggleLanguage s).chat = some (flipLang s.language) ∧
    (handleToggleLanguage s).chatMessages =
      [⟨"initial", Role.model, t "chatbot_greeting" (flipLang s.language)⟩] := by
  cases hl : s.language <;>
    simp [handleToggleLanguage, initChat, flipLang, hl]

/-- C6 counterexample: from a state whose `error` field is set, `handleReset`
does not return to the material-input view — the error field survives the
reset and `renderRecyclerContent` keeps showing the suggestion/error view. -/
theorem reset_to_input_view_counterexample :
    renderRecyclerContent
        (handleReset { initialState with
          error := some "Failed to get suggestions. Please try again." }) =
      RecyclerView.suggestionDisplay ∧
    RecyclerView.suggestionDisplay ≠ RecyclerView.materialInput := by
  constructor
  · rfl
  · decide

/-- C6 amended: the reset handler clears materials, suggestions, the selected
suggestion and the project data, and the post-reset recycler view is the
material-input view provided no error message is set and no load is in
progress (neither field is cleared by the handler). -/
theorem reset_clears_to_input_view (s : AppState)
    (he : s.error = none) (hl : s.isLoading = false) :
    (handleReset s).materials = [] ∧
    (handleReset s).suggestions = [] ∧
    (handleReset s).selectedSuggestion = none ∧
    (handleReset s).projectData = none ∧
    renderRecyclerContent (handleReset s) = RecyclerView.materialInput := by
  simp [handleReset, renderRecyclerContent, he, hl]

/-- C6 amended, witness at the initial state. -/
theorem reset_clears_to_input_view_witness :
    (handleReset initialState).materials = [] ∧
    (handleReset initialState).suggestions = [] ∧
    (handleReset initialState).selectedSuggestion = none ∧
    (handleReset initialState).projectData = none ∧
    renderRecyclerContent (handleReset initialState) = RecyclerView.materialInput :=
  reset_clears_to_input_view initialState rfl rfl

/-- C4 counterexample: once the stream of a prior send has begun (the
placeholder model message is appended and the in-flight flag was already
cleared at line 788), a second send is not a no-op: it issues a request and
grows the message list from 2 to 3. -/
theorem send_while_streaming_counterexample :
    (handleSendMessageStreamStart "1"
        (handleSendMessagePre "hi" "1" { initialState with chat := some Lang.en }).1).chatMessages =
      [⟨"1", Role.user, "hi"⟩, ⟨"1" ++ "-model", Role.model, "..."⟩] ∧
    (handleSendMessageStreamStart "1"
        (handleSendMessagePre "hi" "1" { initialState with chat := some Lang.en }).1).isChatLoading =
      false ∧
    (handleSendMessagePre "again" "2"
        (handleSendMessageStreamStart "1"
          (handleSendMessagePre "hi" "1" { initialState with chat := some Lang.en }).1)).2 =
      true ∧
    (handleSendMessagePre "again" "2"
        (handleSendMessageStreamStart "1"
          (handleSendMessagePre "hi" "1" { initialState with chat := some Lang.en }).1)).1.chatMessages.length =
      3 := by
  decide

/-- C4 amended: a send is a no-op exactly while the in-flight flag
`isChatLoading` is set, i.e. from a prior send until its stream handle
arrives (or the send fails); the state is unchanged and no request is
issued. Once streaming has begun the flag is already cleared and a new send
is no longer blocked. -/
theorem send_inflight_noop (raw now : String) (s : AppState)
    (h : s.isChatLoading = true) :
    handleSendMessagePre raw now s = (s, false) := by
  simp [handleSendMessagePre, h]

/-- C4 amended, witness. -/
theorem send_inflight_noop_witness :
    handleSendMessagePre "hello" "5" { initialState with isChatLoading := true } =
      ({ initialState with isChatLoading := true }, false) :=
  send_inflight_noop "hello" "5" { initialState with isChatLoading := true } rfl

/-- C10 counterexample: the claimed equation `t key = t (lowercase key)` fails
for a mixed-case key whose lowercase form is unknown: the original key is
returned on the left, the lowercased one on the right. -/
theorem t_case_insensitive_counterexample :
    t "XYZ" Lang.en ≠ t (toLowerCase "XYZ") Lang.en := by
  decide

/-- Every key of the translation table is already lower-case. -/
theorem translations_keys_lower :
    ∀ e ∈ translations, toLowerCase e.1 = e.1 := by
  decide

/-- C10 amended: the lookup is case-insensitive — `t key = t (lowercase key)`
whenever the lowercase form of the key is a known translation key — while a
key whose lowercase form is unknown is returned in its original,
non-lowercased form (so the equation can fail for unknown mixed-case keys). -/
theorem t_lowercases_key (key : String) (language : Lang) :
    ((lookupTranslation (toLowerCase key)).isSome →
      t key language = t (toLowerCase key) language) ∧
    (lookupTranslation (toLowerCase key) = none → t key language = key) := by
  constructor
  · intro h
    obtain ⟨p, hp⟩ := Option.isSome_iff_exists.mp h
    have hfind : ∃ e, translations.find? (fun e => e.1 = toLowerCase key) = some e := by
      unfold lookupTranslation at hp
      cases hfe : translations.find? (fun e => e.1 = toLowerCase key) with
      | none => rw [hfe] at hp; simp at hp
      | some e => exact ⟨e, rfl⟩
    obtain ⟨e, he⟩ := hfind
    have hkey : e.1 = toLowerCase key := by
      have := List.find?_some he
      simpa using this
    have hmem : e ∈ translations := List.mem_of_find?_eq_some he
    have hfix : toLowerCase (toLowerCase key) = toLowerCase key := by
      rw [← hkey]
      exact translations_keys_lower e hmem
    unfold t
    rw [hfix, hp]
  · intro h
    unfold t
    rw [h]

/-- C10 amended, witness: the difficulty label `'Easy'` (upper-cased in the
view code) resolves through its lowercase key. -/
theorem t_lowercases_key_witness :
    t "Easy" Lang.en = t (toLowerCase "Easy") Lang.en :=
  (t_lowercases_key "Easy" Lang.en).1 (by decide)

/-- The empty string has no numeric prefix: JS `parseFloat('')` is `NaN`. -/
theorem parseFloat_empty : parseFloat "" = none := rfl

/-- C5: under the HTML number-input value sanitization declared by the form
template (line 489, `type="number"`: the submitted quantity string is empty
or a valid numeric literal), the add-material handler appends — with the
minted id and a form reset — exactly when the name is non-empty and the
quantity is a number, leaves the list unchanged otherwise, and never appends
a material with a `NaN` quantity. -/
theorem addMaterial_validates (now name qty unit : String) (materials : List Material)
    (hq : qty = "" ∨ (parseFloat qty).isSome) :
    (name ≠ "" ∧ (parseFloat qty).isSome →
      handleAddMaterial now name qty unit materials =
        (materials ++ [{ id := now, name := name, quantity := parseFloat qty, unit := unit }],
          true)) ∧
    (¬ (name ≠ "" ∧ (parseFloat qty).isSome) →
      handleAddMaterial now name qty unit materials = (materials, false)) ∧
    (∀ m ∈ (handleAddMaterial now name qty unit materials).1,
      m ∈ materials ∨ m.quantity.isSome) := by
  have hiff : (qty ≠ "") ↔ (parseFloat qty).isSome = true := by
    constructor
    · intro hne
      cases hq with
      | inl h => exact absurd h hne
      | inr h => exact h
    · intro hs heq
      rw [heq, parseFloat_empty] at hs
      simp at hs
  refine ⟨?_, ?_, ?_⟩
  · rintro ⟨hn, hs⟩
    unfold handleAddMaterial
    rw [if_pos ⟨hn, hiff.mpr hs⟩]
  · intro hcon
    have hng : ¬ (name ≠ "" ∧ qty ≠ "") := by
      rintro ⟨hn, hq2⟩
      exact hcon ⟨hn, hiff.mp hq2⟩
    unfold handleAddMaterial
    rw [if_neg hng]
  · intro m hm
    unfold handleAddMaterial at hm
    split at hm
    · rename_i hcond
      rcases List.mem_append.mp hm with hold | hnew
      · exact Or.inl hold
      · right
        simp only [List.mem_singleton] at hnew
        subst hnew
        simpa using hiff.mp hcond.2
    · exact Or.inl hm

/-- C5 witness: a valid submission is appended with the minted id. -/
theorem addMaterial_validates_witness :
    handleAddMaterial "2026-01-01T00:00:00.000Z" "scrap" "10" "kg" [] =
      ([{ id := "2026-01-01T00:00:00.000Z", name := "scrap", quantity := parseFloat "10",
          unit := "kg" }], true) :=
  (addMaterial_validates "2026-01-01T00:00:00.000Z" "scrap" "10" "kg" []
    (Or.inr (by decide))).1 ⟨by decide, by decide⟩

/-- A string of whitespace characters trims to the empty string. -/
theorem trimStr_all_ws {s : String} (h : s.data.all jsWhitespace) : trimStr s = "" := by
  have hd : s.data.dropWhile jsWhitespace = [] :=
    List.dropWhile_eq_nil_iff.mpr (by simpa [List.all_eq_true] using h)
  simp [trimStr, hd]

/-- C8: a model response whose text payload is absent, empty or
whitespace-only makes both `getSuggestions` and `getSteps` fail with an
error rather than return any value. -/
theorem empty_response_errors (respText : Option String) (parsedS : List Suggestion)
    (images : List (Option String)) (parsedP : ProjectData)
    (h : respText = none ∨ ∃ s, respText = some s ∧ s.data.all jsWhitespace) :
    (∃ e, getSuggestions respText parsedS images = Except.error e) ∧
    (∃ e, getSteps respText parsedP = Except.error e) := by
  rcases h with h | ⟨s, hs, hws⟩
  · subst h
    exact ⟨⟨_, rfl⟩, ⟨_, rfl⟩⟩
  · subst hs
    have ht := trimStr_all_ws hws
    constructor
    · exact ⟨"Received an empty response from the model when fetching suggestions.", by
        simp [getSuggestions, ht]⟩
    · exact ⟨"Received an empty response from the model when fetching project steps.", by
        simp [getSteps, ht]⟩

/-- C8 witness: a whitespace-only payload errors on both fetches. -/
theorem empty_response_errors_witness :
    (∃ e, getSuggestions (some " \n ") [] [] = Except.error e) ∧
    (∃ e, getSteps (some " \n ") ⟨0, [], []⟩ = Except.error e) :=
  empty_response_errors (some " \n ") [] [] ⟨0, [], []⟩
    (Or.inr ⟨" \n ", rfl, by decide⟩)

/-- C1 counterexample: two add operations minted in the same millisecond
(`new Date().toISOString()` has millisecond resolution, so both stringify to
the same timestamp) leave the materials list with two entries of the same
id. -/
theorem material_ids_unique_counterexample :
    ¬ ((runInvOps
          [InvOp.add "2026-01-01T00:00:00.000Z" "a" "1" "kg",
           InvOp.add "2026-01-01T00:00:00.000Z" "b" "2" "kg"]).map Material.id).Nodup := by
  decide

/-- Helper for C1: the fold preserves id-uniqueness when the pending add
timestamps are distinct and disjoint from the ids already present. -/
theorem foldl_invOps_nodup (ops : List InvOp) :
    ∀ ms : List Material, ((ms.map Material.id).Nodup) →
      (∀ m ∈ ms, m.id ∉ addStamps ops) → (addStamps ops).Nodup →
      ((ops.foldl applyInvOp ms).map Material.id).Nodup := by
  induction ops with
  | nil => intro ms h _ _; simpa using h
  | cons op ops ih =>
    intro ms hnd hdisj hstamps
    cases op with
    | add now name qty unit =>
      simp only [List.foldl_cons]
      have hstamps' : (addStamps ops).Nodup := by
        simpa [addStamps] using hstamps.of_cons
      have hnots : now ∉ addStamps ops := by
        have := hstamps
        simp [addStamps, List.nodup_cons] at this
        exact this.1
      simp only [applyInvOp, handleAddMaterial]
      split
      · apply ih
        · simp only [List.map_append, List.map_cons, List.map_nil]
          rw [List.nodup_append]
          refine ⟨hnd, by simp, ?_⟩
          intro x hx
          simp only [List.mem_singleton]
          intro hxe
          subst hxe
          obtain ⟨m, hm, hmid⟩ := List.mem_map.mp hx
          exact (hdisj m hm) (by simp [addStamps, ← hmid])
        · intro m hm
          rcases List.mem_append.mp hm with hold | hnew
          · exact fun hc => (hdisj m hold) (by simp [addStamps, hc])
          · simp only [List.mem_singleton] at hnew
            subst hnew
            simpa using hnots
        · exact hstamps'
      · apply ih ms hnd _ hstamps'
        intro m hm hc
        exact (hdisj m hm) (by simp [addStamps, hc])
    | del i =>
      simp only [List.foldl_cons, applyInvOp, handleDeleteMaterial]
      apply ih
      · exact List.Nodup.sublist (List.Sublist.map _ (List.filter_sublist ms)) hnd
      · intro m hm
        exact fun hc => (hdisj m (List.mem_of_mem_filter hm)) (by simpa [addStamps] using hc)
      · simpa [addStamps] using hstamps

/-- C1 amended: for every sequence of add- and delete-material operations in
which the timestamps minted by the adds are pairwise distinct (no two adds
fall in the same millisecond), the resulting materials list never contains
two entries with the same id; when two adds share a creation timestamp the
minted ids collide. -/
theorem material_ids_unique (ops : List InvOp) (h : (addStamps ops).Nodup) :
    ((runInvOps ops).map Material.id).Nodup :=
  foldl_invOps_nodup ops [] (by simp) (by simp) h

/-- C1 amended, witness: add, delete, add with distinct timestamps. -/
theorem material_ids_unique_witness :
    ((runInvOps
        [InvOp.add "2026-01-01T00:00:00.000Z" "a" "1" "kg",
         InvOp.del "2026-01-01T00:00:00.000Z",
         InvOp.add "2026-01-01T00:00:00.001Z" "b" "2" "kg"]).map Material.id).Nodup :=
  material_ids_unique
    [InvOp.add "2026-01-01T00:00:00.000Z" "a" "1" "kg",
     InvOp.del "2026-01-01T00:00:00.000Z",
     InvOp.add "2026-01-01T00:00:00.001Z" "b" "2" "kg"]
    (by decide)

/-- Stable insertion produces a permutation of consing. -/
theorem insertStep_perm (x : Step) (l : List Step) : List.Perm (insertStep x l) (x :: l) := by
  induction l with
  | nil => exact List.Perm.refl _
  | cons y ys ih =>
    unfold insertStep
    split
    · exact (ih.cons y).trans (List.Perm.swap x y ys)
    · exact List.Perm.refl _

/-- `sortSteps` permutes its input. -/
theorem sortSteps_perm (l : List Step) : List.Perm (sortSteps l) l := by
  induction l with
  | nil => exact List.Perm.refl _
  | cons y ys ih =>
    simp only [sortSteps, List.foldr_cons]
    exact ((insertStep_perm y _).trans (List.Perm.cons y ih))

/-- Stable insertion preserves sortedness by the `step` key. -/
theorem insertStep_sorted (x : Step) {l : List Step}
    (h : l.Pairwise (fun a b => a.step ≤ b.step)) :
    (insertStep x l).Pairwise (fun a b => a.step ≤ b.step) := by
  induction l with
  | nil => simp [insertStep]
  | cons y ys ih =>
    rw [List.pairwise_cons] at h
    unfold insertStep
    split
    · rename_i hlt
      refine List.pairwise_cons.mpr ⟨?_, ih h.2⟩
      intro b hb
      rcases List.mem_cons.mp ((insertStep_perm x ys).mem_iff.mp hb) with hbx | hbys
      · subst hbx
        omega
      · exact h.1 b hbys
    · rename_i hnlt
      refine List.pairwise_cons.mpr ⟨?_, List.pairwise_cons.mpr h⟩
      intro b hb
      rcases List.mem_cons.mp hb with hby | hbys
      · subst hby
        omega
      · exact le_trans (by omega) (h.1 b hbys)

/-- `sortSteps` sorts non-decreasingly by the `step` key. -/
theorem sortSteps_sorted (l : List Step) :
    (sortSteps l).Pairwise (fun a b => a.step ≤ b.step) := by
  induction l with
  | nil => simp [sortSteps]
  | cons y ys ih =>
    simp only [sortSteps, List.foldr_cons]
    exact insertStep_sorted y ih

/-- A successful `getSteps` returns the shape-trusted value with its steps
replaced by their sorted version. -/
theorem getSteps_ok_shape {respText : Option String} {parsed pd : ProjectData}
    (h : getSteps respText parsed = Except.ok pd) :
    pd = { parsed with steps := sortSteps parsed.steps } := by
  unfold getSteps at h
  cases respText with
  | none => simp at h
  | some s =>
    simp only [Option.map_some'] at h
    split at h
    · simp at h
    · split at h
      · simp at h
      · simp only [Except.ok.injEq] at h
        exact h.symm

/-- C3 counterexample: duplicate step numbers returned by the model survive
the sort, so the returned steps are not strictly increasing and two returned
steps share a step number. -/
theorem steps_strictly_increasing_counterexample :
    getSteps (some "[1]") ⟨0, [], [⟨1, "a", "x"⟩, ⟨1, "b", "y"⟩]⟩ =
      Except.ok ⟨0, [], [⟨1, "a", "x"⟩, ⟨1, "b", "y"⟩]⟩ ∧
    ¬ (([⟨1, "a", "x"⟩, ⟨1, "b", "y"⟩] : List Step).Pairwise
        (fun a b => a.step < b.step)) ∧
    ¬ (([⟨1, "a", "x"⟩, ⟨1, "b", "y"⟩] : List Step).map Step.step).Nodup := by
  refine ⟨by rfl, by decide, by decide⟩

/-- C3 amended: a successful `getSteps` returns the steps sorted
non-decreasingly by the `step` field, as a permutation of the received steps;
the order is strictly increasing whenever the received step numbers are
pairwise distinct, but duplicate step numbers are preserved, not removed. -/
theorem steps_sorted_after_fetch (respText : Option String) (parsed pd : ProjectData)
    (h : getSteps respText parsed = Except.ok pd) :
    pd.steps.Pairwise (fun a b => a.step ≤ b.step) ∧
    List.Perm pd.steps parsed.steps ∧
    ((parsed.steps.map Step.step).Nodup →
      pd.steps.Pairwise (fun a b => a.step < b.step)) := by
  have hshape := getSteps_ok_shape h
  subst hshape
  refine ⟨sortSteps_sorted _, sortSteps_perm _, ?_⟩
  intro hnd
  have hnd2 : ((sortSteps parsed.steps).map Step.step).Nodup :=
    (((sortSteps_perm parsed.steps).map Step.step).nodup_iff).mpr hnd
  have hne : (sortSteps parsed.steps).Pairwise (fun a b => a.step ≠ b.step) :=
    List.pairwise_map.mp hnd2
  exact ((sortSteps_sorted parsed.steps).and hne).imp
    (fun hab => lt_of_le_of_ne hab.1 hab.2)

/-- C3 amended, witness: the spec's literal out-of-order example — steps
received as step 2 then step 1 come back as 1 then 2, strictly increasing. -/
theorem steps_sorted_after_fetch_witness :
    ([⟨1, "a", "x"⟩, ⟨2, "b", "y"⟩] : List Step).Pairwise (fun a b => a.step ≤ b.step) ∧
    List.Perm ([⟨1, "a", "x"⟩, ⟨2, "b", "y"⟩] : List Step) [⟨2, "b", "y"⟩, ⟨1, "a", "x"⟩] ∧
    ((([⟨2, "b", "y"⟩, ⟨1, "a", "x"⟩] : List Step).map Step.step).Nodup →
      ([⟨1, "a", "x"⟩, ⟨2, "b", "y"⟩] : List Step).Pairwise (fun a b => a.step < b.step)) :=
  steps_sorted_after_fetch (some "[1]") ⟨0, [], [⟨2, "b", "y"⟩, ⟨1, "a", "x"⟩]⟩
    ⟨0, [], [⟨1, "a", "x"⟩, ⟨2, "b", "y"⟩]⟩ (by rfl)

/-- Folding string append from an arbitrary accumulator. -/
theorem foldl_append_str (l : List String) : ∀ a : String,
    l.foldl (· ++ ·) a = a ++ l.foldl (· ++ ·) "" := by
  induction l with
  | nil => intro a; simp
  | cons c cs ih =>
    intro a
    simp only [List.foldl_cons]
    rw [ih (a ++ c), ih ("" ++ c), String.empty_append, String.append_assoc]

/-- `String.join` unfolded one element. -/
theorem string_join_cons (c : String) (cs : List String) :
    String.join (c :: cs) = c ++ String.join cs := by
  simp only [String.join, List.foldl_cons, String.empty_append]
  exact foldl_append_str cs c

/-- Updating the id-matching message when the match is the last element and
all earlier ids differ. -/
theorem setMessageText_append_last (pre : List ChatMessage) (mid txt : String)
    (r : Role) (x : String) (hfresh : ∀ m ∈ pre, m.id ≠ mid) :
    setMessageText (pre ++ [⟨mid, r, x⟩]) mid txt = pre ++ [⟨mid, r, txt⟩] := by
  induction pre with
  | nil => simp [setMessageText]
  | cons m ms ih =>
    simp only [List.cons_append, setMessageText]
    rw [if_neg (hfresh m (by simp))]
    show m :: setMessageText (ms ++ [⟨mid, r, x⟩]) mid txt = m :: (ms ++ [⟨mid, r, txt⟩])
    rw [ih (fun m hm => hfresh m (by simp [hm]))]

/-- Streaming all chunks into the trailing placeholder message accumulates
their concatenation into its text (or leaves the placeholder text when the
stream is empty), and touches no other message. -/
theorem streamChunks_append_last (mid : String) (cs : List String) :
    ∀ (acc : String) (pre : List ChatMessage) (r : Role) (x : String),
      (∀ m ∈ pre, m.id ≠ mid) →
      streamChunks mid cs acc (pre ++ [⟨mid, r, x⟩]) =
        pre ++ [⟨mid, r, if cs.isEmpty then x else acc ++ String.join cs⟩] := by
  induction cs with
  | nil =>
    intro acc pre r x _
    simp [streamChunks]
  | cons c cs ih =>
    intro acc pre r x hfresh
    simp only [streamChunks]
    rw [setMessageText_append_last pre mid (acc ++ c) r x hfresh]
    rw [ih (acc ++ c) pre r (acc ++ c) hfresh]
    cases cs with
    | nil => simp [String.join]
    | cons d ds =>
      simp only [List.isEmpty_cons, Bool.false_eq_true, if_false, string_join_cons,
        ← String.append_assoc]

/-- A string is never equal to itself extended by `-model`. -/
theorem ne_append_model (now : String) : now ≠ now ++ "-model" := by
  intro he
  have hlen := congrArg String.length he
  rw [String.length_append] at hlen
  have h6 : ("-model" : String).length = 6 := rfl
  omega

/-- C9 counterexample: a model reply whose stream yields no fragment leaves
the appended model message with the placeholder text `...`, not the
concatenation (the empty string) of its fragments. -/
theorem stream_single_model_message_counterexample :
    (handleSendMessageRun "hi" "1" [] { initialState with chat := some Lang.en }).chatMessages =
      [⟨"1", Role.user, "hi"⟩, ⟨"1" ++ "-model", Role.model, "..."⟩] ∧
    "..." ≠ String.join [] := by
  refine ⟨by decide, by decide⟩

/-- C9 amended: for every non-empty sequence of streamed fragments of one
model reply, provided the minted model-message id collides with no existing
message id (distinct `Date.now()` per send), the send appends exactly one
user message and one model message; the model message keeps the same minted
id throughout and its final text is the concatenation of all fragments. -/
theorem stream_single_model_message (raw now : String) (chunks : List String)
    (s : AppState) (hraw : trimStr raw ≠ "") (hchat : s.chat ≠ none)
    (hload : s.isChatLoading = false)
    (hfresh : ∀ m ∈ s.chatMessages, m.id ≠ now ++ "-model") (hch : chunks ≠ []) :
    (handleSendMessageRun raw now chunks s).chatMessages =
      s.chatMessages ++ [⟨now, Role.user, trimStr raw⟩,
                         ⟨now ++ "-model", Role.model, String.join chunks⟩] := by
  have hguard : ¬ (trimStr raw = "" ∨ s.chat = none ∨ s.isChatLoading = true) := by
    push_neg
    exact ⟨hraw, hchat, by simp [hload]⟩
  simp only [handleSendMessageRun, handleSendMessagePre]
  rw [if_neg hguard]
  simp only [handleSendMessageStreamStart, if_true]
  have hfresh2 : ∀ m ∈ s.chatMessages ++ [⟨now, Role.user, trimStr raw⟩],
      m.id ≠ now ++ "-model" := by
    intro m hm
    rcases List.mem_append.mp hm with hold | hnew
    · exact hfresh m hold
    · simp only [List.mem_singleton] at hnew
      subst hnew
      exact ne_append_model now
  have hmain := streamChunks_append_last (now ++ "-model") chunks ""
    (s.chatMessages ++ [⟨now, Role.user, trimStr raw⟩]) Role.model "..." hfresh2
  rw [hmain, if_neg (by simpa [List.isEmpty_iff] using hch), String.empty_append,
    List.append_assoc]
  rfl

/-- C9 amended, witness: the spec's literal fragments `Hel`, `lo` end as one
model message reading their concatenation. -/
theorem stream_single_model_message_witness :
    (handleSendMessageRun " hello " "7" ["Hel", "lo"]
        { initialState with chat := some Lang.en }).chatMessages =
      ({ initialState with chat := some Lang.en } : AppState).chatMessages ++
        [⟨"7", Role.user, trimStr " hello "⟩,
         ⟨"7" ++ "-model", Role.model, String.join ["Hel", "lo"]⟩] :=
  stream_single_model_message " hello " "7" ["Hel", "lo"]
    { initialState with chat := some Lang.en }
    (by decide) (by decide) rfl (by intro m hm; simp [initialState] at hm) (by decide)

/- ===== C2: the fence-first and direct-first strategies coincide ===== -/

/-- Inversion for `HasOpen` on a cons cell. -/
theorem hasOpen_head_or_tail {c : Char} {l : List Char} (h : HasOpen (c :: l)) :
    (c = bq ∧ ∃ tail, l = bq :: bq :: 'j' :: 's' :: 'o' :: 'n' :: '\n' :: tail) ∨
      HasOpen l := by
  cases h with
  | here tail => exact Or.inl ⟨rfl, tail, rfl⟩
  | there _ _ h2 => exact Or.inr h2

/-- Peeling a non-backquote head preserves the open-fence occurrence. -/
theorem hasOpen_cons {c : Char} {l : List Char} (h : HasOpen (c :: l)) (hc : c ≠ bq) :
    HasOpen l := by
  rcases hasOpen_head_or_tail h with ⟨he, -⟩ | h2
  · exact absurd he hc
  · exact h2

/-- An open-fence occurrence in `p ++ r` with a backquote-free `p` lies in `r`. -/
theorem hasOpen_append {p r : List Char} (hp : ∀ x ∈ p, x ≠ bq)
    (h : HasOpen (p ++ r)) : HasOpen r := by
  induction p with
  | nil => simpa using h
  | cons c cs ih =>
    exact ih (fun x hx => hp x (List.mem_cons_of_mem c hx))
      (hasOpen_cons (by simpa using h) (hp c (List.mem_cons_self c cs)))

/-- The string lexer rejects the tail of an open fence: the raw LF seven
characters in is a control character. -/
theorem lexString_openFence (tail : List Char) :
    lexString (bq :: bq :: 'j' :: 's' :: 'o' :: 'n' :: '\n' :: tail) = none := rfl

/-- A hex digit is not a backquote. -/
theorem ne_bq_of_hexDigit {c : Char} (h : hexDigit c = true) : c ≠ bq := by
  intro he
  subst he
  exact absurd h (by decide)

/-- A JSON escape character is not a backquote. -/
theorem ne_bq_of_escapeChar {c : Char} (h : escapeChar c = true) : c ≠ bq := by
  intro he
  subst he
  exact absurd h (by decide)

/-- JSON whitespace is not a backquote. -/
theorem ne_bq_of_jsonWs {c : Char} (h : jsonWs c = true) : c ≠ bq := by
  intro he
  subst he
  exact absurd h (by decide)

/-- A decimal digit is not a backquote. -/
theorem ne_bq_of_isDigit {c : Char} (h : c.isDigit = true) : c ≠ bq := by
  intro he
  subst he
  exact absurd h (by decide)

/-- A successfully lexed string literal contains no open fence outside its
remainder: raw control characters are rejected inside the literal, so the
LF of an open fence cannot be absorbed by it. -/
theorem lexString_no_open (l : List Char) :
    ∀ r, lexString l = some r → ¬ HasOpen r → ¬ HasOpen l := by
  induction l using lexString.induct with
  | case1 =>
    intro r h
    simp [lexString] at h
  | case2 rest =>
    intro r h hr hop
    simp only [lexString, Option.some.injEq] at h
    subst h
    rcases hasOpen_head_or_tail hop with ⟨he, -⟩ | h2
    · exact absurd he (by decide)
    · exact hr h2
  | case3 h1 h2 h3 h4 rest hhex ih =>
    intro r h hr hop
    simp only [lexString, if_pos hhex] at h
    have hrest := ih r h hr
    have o1 := hasOpen_cons hop (by decide)
    have o2 := hasOpen_cons o1 (by decide)
    have o3 := hasOpen_cons o2 (ne_bq_of_hexDigit hhex.1)
    have o4 := hasOpen_cons o3 (ne_bq_of_hexDigit hhex.2.1)
    have o5 := hasOpen_cons o4 (ne_bq_of_hexDigit hhex.2.2.1)
    have o6 := hasOpen_cons o5 (ne_bq_of_hexDigit hhex.2.2.2)
    exact hrest o6
  | case4 h1 h2 h3 h4 rest hhex =>
    intro r h
    simp [lexString, if_neg hhex] at h
  | case5 e rest hne hesc ih =>
    intro r h hr hop
    simp only [lexString, if_pos hesc] at h
    have hrest := ih r h hr
    have o1 := hasOpen_cons hop (by decide)
    have o2 := hasOpen_cons o1 (ne_bq_of_escapeChar hesc)
    exact hrest o2
  | case6 e rest hne hesc =>
    intro r h
    simp [lexString, if_neg hesc] at h
  | case7 c rest hq hu he hge ih =>
    intro r h hr hop
    simp only [lexString] at h
    rw [if_pos hge] at h
    rcases hasOpen_head_or_tail hop with ⟨-, tail, hrest⟩ | h2
    · rw [hrest, lexString_openFence] at h
      exact Option.noConfusion h
    · exact ih r h hr h2
  | case8 c rest hq hu he hge =>
    intro r h
    simp only [lexString] at h
    rw [if_neg hge] at h
    exact Option.noConfusion h

/-- Characters taken by a predicate that excludes the backquote. -/
theorem takeWhile_ne_bq {p : Char → Bool} (hp : p bq = false) {l : List Char} :
    ∀ x ∈ l.takeWhile p, x ≠ bq := by
  intro x hx he
  subst he
  have := List.mem_takeWhile_imp hx
  rw [hp] at this
  exact Bool.noConfusion this

/-- Decomposition of the guarded digit-span step. -/
theorem digitSpanRest_decomp {l2 r : List Char} (h : digitSpanRest l2 = some r) :
    ∃ pre, BqFreeSplit l2 pre r := by
  unfold digitSpanRest at h
  split at h
  · exact Option.noConfusion h
  · simp only [Option.some.injEq] at h
    subst h
    refine ⟨l2.takeWhile Char.isDigit, ?_, takeWhile_ne_bq (by decide)⟩
    simp [List.span_eq_take_drop]

/-- Stripping a sign removes only backquote-free characters. -/
theorem stripSign_decomp (l : List Char) : ∃ pre, BqFreeSplit l pre (stripSign l) := by
  unfold stripSign
  split
  · exact ⟨['+'], rfl, by decide⟩
  · exact ⟨['-'], rfl, by decide⟩
  · exact ⟨[], rfl, by simp⟩

/-- Stripping a minus removes only backquote-free characters. -/
theorem stripMinus_decomp (l : List Char) : ∃ pre, BqFreeSplit l pre (stripMinus l) := by
  unfold stripMinus
  split
  · exact ⟨['-'], rfl, by decide⟩
  · exact ⟨[], rfl, by simp⟩

/-- Composing two backquote-free decompositions. -/
theorem BqFreeSplit.trans {l p1 m p2 r : List Char}
    (h1 : BqFreeSplit l p1 m) (h2 : BqFreeSplit m p2 r) :
    ∃ pre, BqFreeSplit l pre r := by
  refine ⟨p1 ++ p2, ?_, ?_⟩
  · rw [h1.1, h2.1, List.append_assoc]
  · intro x hx
    rcases List.mem_append.mp hx with hx1 | hx2
    · exact h1.2 x hx1
    · exact h2.2 x hx2

/-- A backquote-free decomposition extended by one backquote-free head. -/
theorem BqFreeSplit.cons {l pre r : List Char} {c : Char}
    (h : BqFreeSplit l pre r) (hc : c ≠ bq) : BqFreeSplit (c :: l) (c :: pre) r := by
  refine ⟨by rw [h.1]; rfl, ?_⟩
  intro x hx
  rcases List.mem_cons.mp hx with hxc | hx2
  · subst hxc; exact hc
  · exact h.2 x hx2

/-- The exponent lexer consumes only backquote-free characters. -/
theorem lexExpPart_decomp {l r : List Char} (h : lexExpPart l = some r) :
    ∃ pre, BqFreeSplit l pre r := by
  unfold lexExpPart at h
  split at h
  · rename_i c rest
    split at h
    · rename_i hce
      obtain ⟨p1, hp1⟩ := stripSign_decomp rest
      obtain ⟨p2, hp2⟩ := digitSpanRest_decomp h
      obtain ⟨pre, hpre⟩ := hp1.trans hp2
      have hcne : c ≠ bq := by
        rcases hce with hce | hce <;> (subst hce; decide)
      exact ⟨c :: pre, hpre.cons hcne⟩
    · simp only [Option.some.injEq] at h
      exact ⟨[], by simp [h], by simp⟩
  · simp only [Option.some.injEq] at h
    exact ⟨[], by simp [← h], by simp⟩

/-- The fraction-and-exponent lexer consumes only backquote-free characters. -/
theorem lexFrac_decomp {l r : List Char} (h : lexFrac l = some r) :
    ∃ pre, BqFreeSplit l pre r := by
  unfold lexFrac at h
  split at h
  · rename_i rest
    cases hds : digitSpanRest rest with
    | none => rw [hds] at h; exact Option.noConfusion h
    | some r2 =>
      rw [hds] at h
      obtain ⟨p1, hp1⟩ := digitSpanRest_decomp hds
      obtain ⟨p2, hp2⟩ := lexExpPart_decomp h
      obtain ⟨pre, hpre⟩ := hp1.trans hp2
      exact ⟨'.' :: pre, hpre.cons (by decide)⟩
  · exact lexExpPart_decomp h

/-- The number lexer consumes only backquote-free characters. -/
theorem lexNumber_decomp {l r : List Char} (h : lexNumber l = some r) :
    ∃ pre, BqFreeSplit l pre r := by
  unfold lexNumber at h
  obtain ⟨pm, hpm⟩ := stripMinus_decomp l
  split at h
  · rename_i rest heq
    rw [heq] at hpm
    split at h
    · rename_i d u
      split at h
      · exact Option.noConfusion h
      · rename_i hdig
        obtain ⟨pf, hpf⟩ := lexFrac_decomp h
        have : BqFreeSplit ('0' :: d :: u) ('0' :: pf) r := hpf.cons (by decide)
        obtain ⟨pre, hpre⟩ := hpm.trans this
        exact ⟨pre, hpre⟩
    · simp only [Option.some.injEq] at h
      subst h
      obtain ⟨pre, hpre⟩ := hpm.trans (⟨rfl, by decide⟩ : BqFreeSplit ['0'] ['0'] [])
      exact ⟨pre, hpre⟩
  · rename_i c rest hzero heq
    rw [heq] at hpm
    split at h
    · rename_i hdig
      obtain ⟨pf, hpf⟩ := lexFrac_decomp h
      have hrest : BqFreeSplit rest (rest.takeWhile Char.isDigit) (rest.dropWhile Char.isDigit) :=
        ⟨(List.takeWhile_append_dropWhile Char.isDigit rest).symm, takeWhile_ne_bq (by decide)⟩
      obtain ⟨p2, hp2⟩ := hrest.trans hpf
      have hcrest : BqFreeSplit (c :: rest) (c :: p2) r := hp2.cons (ne_bq_of_isDigit hdig)
      obtain ⟨pre, hpre⟩ := hpm.trans hcrest
      exact ⟨pre, hpre⟩
    · exact Option.noConfusion h
  · exact Option.noConfusion h

/-- A successfully lexed number keeps any open-fence occurrence in its
remainder. -/
theorem lexNumber_no_open {l r : List Char} (h : lexNumber l = some r)
    (hr : ¬ HasOpen r) : ¬ HasOpen l := by
  obtain ⟨pre, hl, hpre⟩ := lexNumber_decomp h
  rw [hl]
  intro hop
  exact hr (hasOpen_append hpre hop)

/-- Unfolding lemma for the tokenizer at zero fuel on a cons cell. -/
theorem tokenize_zero_cons (c : Char) (cs : List Char) :
    tokenize 0 (c :: cs) = none := rfl

/-- One-step unfolding lemma for the tokenizer on a cons cell. -/
theorem tokenize_succ_cons (fuel : Nat) (c : Char) (cs : List Char) :
    tokenize (fuel + 1) (c :: cs) =
      (if jsonWs c then tokenize fuel cs
       else if c = lcurly then (tokenize fuel cs).map (JTok.lbrace :: ·)
       else if c = rcurly then (tokenize fuel cs).map (JTok.rbrace :: ·)
       else if c = '[' then (tokenize fuel cs).map (JTok.lbrack :: ·)
       else if c = ']' then (tokenize fuel cs).map (JTok.rbrack :: ·)
       else if c = ':' then (tokenize fuel cs).map (JTok.colon :: ·)
       else if c = ',' then (tokenize fuel cs).map (JTok.comma :: ·)
       else if c = '"' then
         match lexString cs with
         | some rest => (tokenize fuel rest).map (JTok.jstr :: ·)
         | none => none
       else if c = 't' then
         match cs with
         | 'r' :: 'u' :: 'e' :: rest => (tokenize fuel rest).map (JTok.jtrue :: ·)
         | _ => none
       else if c = 'f' then
         match cs with
         | 'a' :: 'l' :: 's' :: 'e' :: rest => (tokenize fuel rest).map (JTok.jfalse :: ·)
         | _ => none
       else if c = 'n' then
         match cs with
         | 'u' :: 'l' :: 'l' :: rest => (tokenize fuel rest).map (JTok.jnull :: ·)
         | _ => none
       else if c = '-' ∨ c.isDigit then
         match lexNumber (c :: cs) with
         | some rest => (tokenize fuel rest).map (JTok.jnum :: ·)
         | none => none
       else none) := rfl

/-- A tokenizable text contains no open fence: a backquote is only ever
consumed inside a string literal, which cannot absorb the LF seven characters
later. -/
theorem tokenize_no_open : ∀ (fuel : Nat) (l : List Char) (toks : List JTok),
    tokenize fuel l = some toks → ¬ HasOpen l := by
  intro fuel
  induction fuel with
  | zero =>
    intro l toks h
    cases l with
    | nil => intro hop; cases hop
    | cons c cs =>
      rw [tokenize_zero_cons] at h
      exact Option.noConfusion h
  | succ fuel ih =>
    intro l toks h
    cases l with
    | nil => intro hop; cases hop
    | cons c cs =>
      rw [tokenize_succ_cons] at h
      by_cases hws : jsonWs c = true
      · rw [if_pos hws] at h
        exact fun hop => ih cs toks h (hasOpen_cons hop (ne_bq_of_jsonWs hws))
      · rw [if_neg hws] at h
        by_cases hc0 : c = lcurly
        · rw [if_pos hc0] at h
          obtain ⟨ts, hts, -⟩ := Option.map_eq_some'.mp h
          exact fun hop => ih cs ts hts (hasOpen_cons hop (by rw [hc0]; decide))
        · rw [if_neg hc0] at h
          by_cases hc1 : c = rcurly
          · rw [if_pos hc1] at h
            obtain ⟨ts, hts, -⟩ := Option.map_eq_some'.mp h
            exact fun hop => ih cs ts hts (hasOpen_cons hop (by rw [hc1]; decide))
          · rw [if_neg hc1] at h
            by_cases hc2 : c = '['
            · rw [if_pos hc2] at h
              obtain ⟨ts, hts, -⟩ := Option.map_eq_some'.mp h
              exact fun hop => ih cs ts hts (hasOpen_cons hop (by rw [hc2]; decide))
            · rw [if_neg hc2] at h
              by_cases hc3 : c = ']'
              · rw [if_pos hc3] at h
                obtain ⟨ts, hts, -⟩ := Option.map_eq_some'.mp h
                exact fun hop => ih cs ts hts (hasOpen_cons hop (by rw [hc3]; decide))
              · rw [if_neg hc3] at h
                by_cases hc4 : c = ':'
                · rw [if_pos hc4] at h
                  obtain ⟨ts, hts, -⟩ := Option.map_eq_some'.mp h
                  exact fun hop => ih cs ts hts (hasOpen_cons hop (by rw [hc4]; decide))
                · rw [if_neg hc4] at h
                  by_cases hc5 : c = ','
                  · rw [if_pos hc5] at h
                    obtain ⟨ts, hts, -⟩ := Option.map_eq_some'.mp h
                    exact fun hop => ih cs ts hts (hasOpen_cons hop (by rw [hc5]; decide))
                  · rw [if_neg hc5] at h
                    by_cases hcq : c = '"'
                    · rw [if_pos hcq] at h
                      cases hls : lexString cs with
                      | none => rw [hls] at h; exact Option.noConfusion h
                      | some rest =>
                        rw [hls] at h
                        obtain ⟨ts, hts, -⟩ := Option.map_eq_some'.mp h
                        intro hop
                        exact lexString_no_open cs rest hls (ih rest ts hts)
                          (hasOpen_cons hop (by rw [hcq]; decide))
                    · rw [if_neg hcq] at h
                      by_cases hk0 : c = 't'
                      · rw [if_pos hk0] at h
                        split at h
                        · rename_i rest
                          obtain ⟨ts, hts, -⟩ := Option.map_eq_some'.mp h
                          intro hop
                          have o1 := hasOpen_cons hop (by rw [hk0]; decide)
                          have o2 := hasOpen_cons o1 (by decide)
                          have o3 := hasOpen_cons o2 (by decide)
                          have o4 := hasOpen_cons o3 (by decide)
                          exact ih rest ts hts o4
                        · exact Option.noConfusion h
                      · rw [if_neg hk0] at h
                        by_cases hk1 : c = 'f'
                        · rw [if_pos hk1] at h
                          split at h
                          · rename_i rest
                            obtain ⟨ts, hts, -⟩ := Option.map_eq_some'.mp h
                            intro hop
                            have o1 := hasOpen_cons hop (by rw [hk1]; decide)
                            have o2 := hasOpen_cons o1 (by decide)
                            have o3 := hasOpen_cons o2 (by decide)
                            have o4 := hasOpen_cons o3 (by decide)
                            have o5 := hasOpen_cons o4 (by decide)
                            exact ih rest ts hts o5
                          · exact Option.noConfusion h
                        · rw [if_neg hk1] at h
                          by_cases hk2 : c = 'n'
                          · rw [if_pos hk2] at h
                            split at h
                            · rename_i rest
                              obtain ⟨ts, hts, -⟩ := Option.map_eq_some'.mp h
                              intro hop
                              have o1 := hasOpen_cons hop (by rw [hk2]; decide)
                              have o2 := hasOpen_cons o1 (by decide)
                              have o3 := hasOpen_cons o2 (by decide)
                              have o4 := hasOpen_cons o3 (by decide)
                              exact ih rest ts hts o4
                            · exact Option.noConfusion h
                          · rw [if_neg hk2] at h
                            by_cases hnum : c = '-' ∨ c.isDigit = true
                            · rw [if_pos hnum] at h
                              cases hln : lexNumber (c :: cs) with
                              | none => rw [hln] at h; exact Option.noConfusion h
                              | some rest =>
                                rw [hln] at h
                                obtain ⟨ts, hts, -⟩ := Option.map_eq_some'.mp h
                                exact lexNumber_no_open hln (ih rest ts hts)
                            · rw [if_neg hnum] at h
                              exact Option.noConfusion h

/-- A text accepted by the JSON grammar contains no open fence. -/
theorem jsonValid_no_open {s : String} (h : jsonValid s = true) : ¬ HasOpen s.data := by
  unfold jsonValid at h
  cases htk : tokenize (s.data.length + 1) s.data with
  | none => rw [htk] at h; exact Bool.noConfusion h
  | some toks => exact tokenize_no_open _ _ _ htk

/-- A successful boolean prefix test decomposes the list. -/
theorem listStarts_decomp : ∀ {p l : List Char}, listStarts p l = true →
    ∃ r, l = p ++ r := by
  intro p
  induction p with
  | nil =>
    intro l _
    exact ⟨l, rfl⟩
  | cons a ps ih =>
    intro l h
    cases l with
    | nil => exact Bool.noConfusion h
    | cons c cs =>
      rw [listStarts] at h
      simp only [decide_eq_true_eq] at h
      obtain ⟨hac, hps⟩ := h
      obtain ⟨r, hr⟩ := ih hps
      exact ⟨r, by simp [hac, hr]⟩

/-- A regex match implies an open-fence occurrence in the text. -/
theorem findFence_hasOpen : ∀ {l b : List Char}, findFence l = some b → HasOpen l := by
  intro l
  induction l with
  | nil =>
    intro b h
    rw [findFence] at h
    exact Option.noConfusion h
  | cons c cs ih =>
    intro b h
    rw [findFence] at h
    split at h
    · rename_i hst
      obtain ⟨r, hr⟩ := listStarts_decomp hst
      rw [hr]
      exact HasOpen.here r
    · exact HasOpen.there c cs (ih h)

/-- The empty string is not valid JSON. -/
theorem jsonValid_empty : jsonValid "" = false := rfl

/-- C2: the JSON extraction helper behaves exactly as the direct-parse-first
strategy the spec describes: on every payload it returns what direct parsing
of the whole payload would return when that parse succeeds, otherwise falls
back to the fenced block, otherwise fails. The two strategies coincide
because a payload that is valid JSON as a whole can never contain the
regex's open fence (a backquote only occurs inside a JSON string literal,
which cannot contain the raw newline the fence requires), so the claim's
particular case — a valid-JSON payload that also carries a fenced block —
is vacuous, and on all other payloads the fence-first source code and the
direct-first description select the same text. -/
theorem parseJsonResponse_eq_direct_first (s : String) :
    parseJsonResponse s = parseJsonResponseSpec s ∧
    (jsonValid s = true → parseJsonResponse s = Except.ok s) := by
  constructor
  · unfold parseJsonResponse parseJsonResponseSpec
    cases hf : findFence s.data with
    | none =>
      cases hv : jsonValid s <;> simp [hv]
    | some block =>
      have hv : jsonValid s = false := by
        cases hjv : jsonValid s
        · rfl
        · exact absurd (findFence_hasOpen hf) (jsonValid_no_open hjv)
      cases block with
      | nil => simp [hv, jsonValid_empty]
      | cons c bl => simp [hv]
  · intro hv
    unfold parseJsonResponse
    cases hf : findFence s.data with
    | none => simp [hv]
    | some block =>
      exact absurd (findFence_hasOpen hf) (jsonValid_no_open hv)

/-- C2 witness: a payload that is plain valid JSON is returned whole by the
direct parse. -/
theorem parseJsonResponse_eq_direct_first_witness :
    parseJsonResponse "[1, 2]" = Except.ok "[1, 2]" :=
  (parseJsonResponse_eq_direct_first "[1, 2]").2 (by decide)

end RedRecycling
